import Mathlib

/-!
# Verification of the cryptocurrency-tx-exchange-dash market-data core

Shallow embedding of the ingestion/state core of the dashboard
(`dash-core`, `dash-state`, `dash-websocket`, `dash-charts/chartkit`),
translated from the Rust sources.  IEEE-754 `f64` values are modelled by
exact rationals (`ℚ`): every operation the claims exercise (comparison,
`min`/`max`, `+`, `*`, `/`, `floor`/`ceil`, `powi` with small integer
arguments) is either exact in `f64` at the inputs at issue or is a pure
order/field computation whose algorithmic content is what the
specification describes.  Machine integers (`u32`, `i64`, `u64`, `usize`)
are modelled by `ℕ`/`ℤ`; none of the operations involved can overflow at
the sizes involved.
-/

namespace Dash

/-! ## dash-core: value types (`src/crates/dash-core/src/lib.rs`)

`Symbol` is an opaque string wrapper; `Price` and `Quantity` are newtype
wrappers around `f64` whose `new`/`as_f64` are identities, so they are
modelled directly by `ℚ`. -/

abbrev Symbol := String

/-! ## dash-core: trade types (`src/crates/dash-core/src/trade.rs`) -/

inductive TradeSide where
  | Buy
  | Sell
deriving DecidableEq, Repr

/-- `Trade` (trade.rs).  `timestamp: DateTime<Utc>` is modelled by its
Unix-epoch milliseconds (the only observation the state store makes of it
is `timestamp_millis()`). -/
structure Trade where
  id : String
  symbol : Symbol
  price : ℚ
  quantity : ℚ
  side : TradeSide
  timestamp : ℤ
  maker_order_id : Option String := none
  taker_order_id : Option String := none
deriving DecidableEq, Repr

/-! ## dash-core: candle types (`src/crates/dash-core/src/candle.rs`) -/

inductive CandleInterval where
  | M1 | M5 | M15 | M30 | H1 | H4 | D1 | W1
deriving DecidableEq, Repr

/-- `Candle` (candle.rs).  The Rust field `open` is a Lean keyword and is
rendered `open_`. -/
structure Candle where
  symbol : Symbol
  interval : CandleInterval
  timestamp : ℤ
  open_ : ℚ
  high : ℚ
  low : ℚ
  close : ℚ
  volume : ℚ
  quote_volume : ℚ
  trade_count : ℕ
  is_closed : Bool
deriving DecidableEq, Repr

/-- `Candle::new` (candle.rs lines 204-218): all four OHLC fields start at
the opening price, volume/quote volume/trade count at zero, open candle. -/
def Candle.new (symbol : Symbol) (interval : CandleInterval) (timestamp : ℤ)
    (openPrice : ℚ) : Candle where
  symbol := symbol
  interval := interval
  timestamp := timestamp
  open_ := openPrice
  high := openPrice
  low := openPrice
  close := openPrice
  volume := 0
  quote_volume := 0
  trade_count := 0
  is_closed := false

/-- `Candle::update` (candle.rs lines 221-232): raise `high`, lower `low`,
set `close`, accumulate volume, quote volume and trade count. -/
def Candle.update (c : Candle) (price quantity : ℚ) : Candle :=
  let c1 := if price > c.high then { c with high := price } else c
  let c2 := if price < c1.low then { c1 with low := price } else c1
  { c2 with
    close := price
    volume := c2.volume + quantity
    quote_volume := c2.quote_volume + price * quantity
    trade_count := c2.trade_count + 1 }

/-- Apply a finite sequence of `update(price, qty)` calls in order. -/
def Candle.applyUpdates (c : Candle) : List (ℚ × ℚ) → Candle
  | [] => c
  | (p, q) :: rest => (c.update p q).applyUpdates rest

/-- The OHLC ordering invariant from the specification:
`high ≥ max(open, close) ≥ min(open, close) ≥ low`. -/
def Candle.OhlcInvariant (c : Candle) : Prop :=
  max c.open_ c.close ≤ c.high ∧ c.low ≤ min c.open_ c.close

/-- `CandleHistory` (candle.rs lines 320-325). -/
structure CandleHistory where
  symbol : Symbol
  interval : CandleInterval
  candles : List Candle
deriving DecidableEq, Repr

/-- `CandleHistory::new` (candle.rs lines 328-334). -/
def CandleHistory.new (symbol : Symbol) (interval : CandleInterval) : CandleHistory where
  symbol := symbol
  interval := interval
  candles := []

/-! ## dash-core: ticker (`src/crates/dash-core/src/ticker.rs`) -/

/-- `Ticker` (ticker.rs lines 8-38). -/
structure Ticker where
  symbol : Symbol
  last_price : ℚ
  bid_price : ℚ
  bid_qty : ℚ
  ask_price : ℚ
  ask_qty : ℚ
  high_24h : ℚ
  low_24h : ℚ
  volume_24h : ℚ
  quote_volume_24h : ℚ
  change_24h : ℚ
  change_percent_24h : ℚ
  open_24h : ℚ
  trade_count_24h : ℕ
  timestamp : ℤ
deriving DecidableEq, Repr

/-! ## dash-core: order book (`src/crates/dash-core/src/order.rs`) -/

/-- `OrderBookLevel` (order.rs lines 69-75). -/
structure OrderBookLevel where
  price : ℚ
  quantity : ℚ
  order_count : ℕ
deriving DecidableEq, Repr

/-- `OrderBookLevel::value` (order.rs lines 86-89): price × quantity. -/
def OrderBookLevel.value (l : OrderBookLevel) : ℚ :=
  l.price * l.quantity

/-- `OrderBookSnapshot` (order.rs lines 140-149). -/
structure OrderBookSnapshot where
  symbol : Symbol
  bids : List OrderBookLevel
  asks : List OrderBookLevel
  timestamp : ℤ
  sequence : ℕ
deriving DecidableEq, Repr

/-- `OrderBookSnapshot::total_bid_depth` (order.rs lines 204-206). -/
def OrderBookSnapshot.total_bid_depth (b : OrderBookSnapshot) : ℚ :=
  (b.bids.map OrderBookLevel.quantity).sum

/-- `OrderBookSnapshot::total_ask_depth` (order.rs lines 209-211). -/
def OrderBookSnapshot.total_ask_depth (b : OrderBookSnapshot) : ℚ :=
  (b.asks.map OrderBookLevel.quantity).sum

/-- `OrderBookSnapshot::imbalance` (order.rs lines 224-233): the guard
`total == 0.0` returns `0.0` before the division happens. -/
def OrderBookSnapshot.imbalance (b : OrderBookSnapshot) : ℚ :=
  let bid_depth := b.total_bid_depth
  let ask_depth := b.total_ask_depth
  let total := bid_depth + ask_depth
  if total = 0 then 0 else (bid_depth - ask_depth) / total

/-- `DepthPoint` (order.rs lines 266-273). -/
structure DepthPoint where
  price : ℚ
  cumulative_quantity : ℚ
  cumulative_value : ℚ
deriving DecidableEq, Repr

/-- `MarketDepth` (order.rs lines 276-283). -/
structure MarketDepth where
  symbol : Symbol
  bid_depth : List DepthPoint
  ask_depth : List DepthPoint
deriving DecidableEq, Repr

/-- The cumulative loop inside `MarketDepth::from_orderbook`
(order.rs lines 291-315): running sums `cum_qty`/`cum_val` are threaded
through the list of levels, one `DepthPoint` pushed per level. -/
def MarketDepth.cumulate (cum_qty cum_val : ℚ) : List OrderBookLevel → List DepthPoint
  | [] => []
  | level :: rest =>
      { price := level.price
        cumulative_quantity := cum_qty + level.quantity
        cumulative_value := cum_val + level.value } ::
        MarketDepth.cumulate (cum_qty + level.quantity) (cum_val + level.value) rest

/-- `MarketDepth::from_orderbook` (order.rs lines 287-322): both sides are
rebuilt wholesale from the snapshot, starting the running sums at zero. -/
def MarketDepth.from_orderbook (book : OrderBookSnapshot) : MarketDepth where
  symbol := book.symbol
  bid_depth := MarketDepth.cumulate 0 0 book.bids
  ask_depth := MarketDepth.cumulate 0 0 book.asks

/-! ## dash-core: websocket envelope (`src/crates/dash-core/src/lib.rs`) -/

/-- `WsMessage` (lib.rs lines 240-255): the tagged envelope carried by the
feed, one constructor per `type` tag. -/
inductive WsMessage where
  | Trade (t : Dash.Trade)
  | OrderBook (b : OrderBookSnapshot)
  | Ticker (t : Dash.Ticker)
  | Candle (c : Dash.Candle)
  | Depth (d : MarketDepth)
  | Heartbeat (timestamp : ℤ)
deriving DecidableEq, Repr

/-! ## dash-state (`src/crates/dash-state/src/lib.rs`, `market.rs`)

The Leptos `RwSignal` wrappers are reactive cells holding plain values;
every mutator reads and writes them synchronously on the single writer
task, so the store is modelled as a record of the signals' contents and
each mutator as a pure state-transition function. -/

/-- `MAX_TRADES` (dash-state lib.rs line 14). -/
def MAX_TRADES : ℕ := 100

/-- `MAX_CANDLES` (dash-state lib.rs line 15). -/
def MAX_CANDLES : ℕ := 200

/-- `LastUpdateSignals` (market.rs lines 32-38). -/
structure LastUpdateSignals where
  ticker : ℤ
  orderbook : ℤ
  trade : ℤ
  candle : ℤ
deriving DecidableEq, Repr

/-- `MarketState` (market.rs lines 11-29): the contents of the store's
signals. -/
structure MarketState where
  symbol : Symbol
  ticker : Option Dash.Ticker
  orderbook : Option OrderBookSnapshot
  depth : Option MarketDepth
  trades : List Trade
  candles : CandleHistory
  interval : CandleInterval
  last_update : LastUpdateSignals
deriving DecidableEq, Repr

/-- `MarketState::new` (market.rs lines 53-65). -/
def MarketState.new : MarketState where
  symbol := "BTC-USD"
  ticker := none
  orderbook := none
  depth := none
  trades := []
  candles := CandleHistory.new "BTC-USD" CandleInterval.M1
  interval := CandleInterval.M1
  last_update := { ticker := 0, orderbook := 0, trade := 0, candle := 0 }

/-- `MarketState::update_ticker` (market.rs lines 72-75). -/
def MarketState.update_ticker (st : MarketState) (ticker : Ticker) : MarketState :=
  { st with
    last_update := { st.last_update with ticker := ticker.timestamp }
    ticker := some ticker }

/-- `MarketState::update_orderbook` (market.rs lines 87-93): derives
`MarketDepth` from the book, then stores depth and book. -/
def MarketState.update_orderbook (st : MarketState) (book : OrderBookSnapshot) :
    MarketState :=
  let depth := MarketDepth.from_orderbook book
  { st with
    last_update := { st.last_update with orderbook := book.timestamp }
    depth := some depth
    orderbook := some book }

/-- `MarketState::add_trade` (market.rs lines 115-123): `insert(0, trade)`
then `pop()` (drop the last element) once the length exceeds
`MAX_TRADES`. -/
def MarketState.add_trade (st : MarketState) (trade : Trade) : MarketState :=
  let trades1 := trade :: st.trades
  let trades2 := if trades1.length > MAX_TRADES then trades1.dropLast else trades1
  { st with
    last_update := { st.last_update with trade := trade.timestamp }
    trades := trades2 }

/-- Fold `add_trade` over a list: inserting trades one at a time. -/
def MarketState.add_trade_seq (st : MarketState) (ts : List Trade) : MarketState :=
  ts.foldl MarketState.add_trade st

/-- `MarketState::add_trades` (market.rs lines 126-141): early-return on an
empty batch; record the first element's timestamp; `insert(0, trade)` for
each batch element in order; `truncate(MAX_TRADES)`. -/
def MarketState.add_trades (st : MarketState) (new_trades : List Trade) : MarketState :=
  if new_trades.isEmpty then st
  else
    let st1 :=
      match new_trades.head? with
      | some first =>
          { st with last_update := { st.last_update with trade := first.timestamp } }
      | none => st
    { st1 with
      trades := (new_trades.foldl (fun acc t => t :: acc) st1.trades).take MAX_TRADES }

/-- `MarketState::update_candle` (market.rs lines 158-176): replace the
last candle in place when it has the same open timestamp and is still
open; otherwise push and evict index 0 past `MAX_CANDLES`. -/
def MarketState.update_candle (st : MarketState) (candle : Candle) : MarketState :=
  let st1 := { st with last_update := { st.last_update with candle := candle.timestamp } }
  let h := st1.candles
  match h.candles.getLast? with
  | some last =>
      if last.timestamp = candle.timestamp ∧ last.is_closed = false then
        { st1 with candles := { h with candles := h.candles.dropLast ++ [candle] } }
      else
        let cs := h.candles ++ [candle]
        let cs := if cs.length > MAX_CANDLES then cs.tail else cs
        { st1 with candles := { h with candles := cs } }
  | none =>
      let cs := h.candles ++ [candle]
      let cs := if cs.length > MAX_CANDLES then cs.tail else cs
      { st1 with candles := { h with candles := cs } }

/-- `MarketState::set_symbol` (market.rs lines 199-207): store the new
symbol, clear ticker/orderbook/depth/trades, and reinitialize the candle
history keyed to the new symbol and the current interval. -/
def MarketState.set_symbol (st : MarketState) (symbol : Symbol) : MarketState :=
  { st with
    symbol := symbol
    ticker := none
    orderbook := none
    depth := none
    trades := []
    candles := CandleHistory.new symbol st.interval }

/-- `MarketState::set_interval` (market.rs lines 210-213): store the new
interval and reinitialize the candle history keyed to the current symbol
and the new interval.  No other field is written. -/
def MarketState.set_interval (st : MarketState) (interval : CandleInterval) : MarketState :=
  { st with
    interval := interval
    candles := CandleHistory.new st.symbol interval }

/-! ## dash-websocket: reconnection policy (`src/crates/dash-websocket/src/lib.rs`) -/

/-- `ExponentialBackoff` (websocket lib.rs lines 30-42).  `u32` fields are
modelled by `ℕ`, the `f64` multiplier by `ℚ`. -/
structure ExponentialBackoff where
  initial_delay_ms : ℕ
  max_delay_ms : ℕ
  multiplier : ℚ
  max_attempts : ℕ
  jitter : Bool
deriving DecidableEq, Repr

/-- `ExponentialBackoff::delay_ms` (websocket lib.rs lines 110-123).
`base_delay` is `initial_delay_ms as f64 * multiplier.powi(attempt)`;
`base_delay as u32` truncates toward zero and saturates at `u32::MAX`
(the `f64` computation is exact at every input the claims evaluate). -/
def ExponentialBackoff.delay_ms (p : ExponentialBackoff) (attempt : ℕ) : ℕ :=
  let base_delay : ℚ := (p.initial_delay_ms : ℚ) * p.multiplier ^ attempt
  let delay := min (min (⌊base_delay⌋.toNat) (2 ^ 32 - 1)) p.max_delay_ms
  if p.jitter then
    let jitter_range := delay / 5
    let j : ℤ := ((attempt * 7919) % (jitter_range * 2 + 1) : ℕ) - (jitter_range : ℤ)
    (max ((delay : ℤ) + j) 100).toNat
  else
    delay

/-- `ExponentialBackoff::should_reconnect` (websocket lib.rs lines 125-127). -/
def ExponentialBackoff.should_reconnect (p : ExponentialBackoff) (attempt : ℕ) : Bool :=
  p.max_attempts = 0 || attempt < p.max_attempts

/-! ## dash-websocket: client message path (`src/crates/dash-websocket/src/client.rs`)

`WsClient::process_message` takes `&str` text; a Rust `String` is modelled
by its list of Unicode scalar values together with the UTF-8 byte widths
they occupy, because byte-index slicing (`&text[..j]`) is defined on byte
offsets and panics when `j` is not a character boundary. -/

/-- Number of bytes of the UTF-8 encoding of one scalar value. -/
def utf8Width (c : Char) : ℕ :=
  if c.toNat < 0x80 then 1
  else if c.toNat < 0x800 then 2
  else if c.toNat < 0x10000 then 3
  else 4

/-- Byte length of a string (list of scalar values) under UTF-8. -/
def byteLen (s : List Char) : ℕ :=
  (s.map utf8Width).sum

/-- `str::is_char_boundary`: byte index `i` falls on the edge of some
character prefix. -/
def isCharBoundary (s : List Char) (i : ℕ) : Bool :=
  (List.range (s.length + 1)).any fun n => byteLen (s.take n) = i

/-- `WsClient::dispatch_message` (client.rs lines 176-197): route each
decoded envelope into the store's mutator for its kind; heartbeat only
logs. -/
def WsClient.dispatch_message (st : MarketState) : WsMessage → MarketState
  | .Trade t => st.add_trade t
  | .OrderBook b => st.update_orderbook b
  | .Ticker t => st.update_ticker t
  | .Candle c => st.update_candle c
  | .Depth d => { st with depth := some d }
  | .Heartbeat _ => st

/-- `WsClient::process_message` (client.rs lines 164-173), parameterized by
the `serde_json::from_str::<WsMessage>` decoder (library code outside this
repository).  On decode success the message is dispatched.  On decode
failure the code formats a warning containing `&text[..text.len().min(100)]`;
that byte slice panics when the index is not a character boundary, which
this model returns as `none` (a normal return is `some state`). -/
def WsClient.process_message (decode : List Char → Option WsMessage)
    (st : MarketState) (text : List Char) : Option MarketState :=
  match decode text with
  | some msg => some (WsClient.dispatch_message st msg)
  | none =>
      if isCharBoundary text (min (byteLen text) 100) then some st else none

/-! ## dash-charts: chartkit scales (`src/crates/dash-charts/src/chartkit.rs`) -/

/-- `LinearScale` (chartkit.rs lines 29-34). -/
structure LinearScale where
  domain : ℚ × ℚ
  range : ℚ × ℚ
  clamp : Bool
deriving DecidableEq, Repr

/-- The nice-step selection inside `LinearScale::nice_ticks`
(chartkit.rs lines 80-91).  `magnitude = 10^⌊log10 rough_step⌋` is
computed with `Int.log 10`, which is exactly `⌊log10 q⌋` for positive
`q`; the residual `rough_step / magnitude` then lies in `[1, 10)` and is
snapped to the next value among `{1, 2, 5, 10}·magnitude`. -/
def niceStep (rough_step : ℚ) : ℚ :=
  let magnitude : ℚ := 10 ^ (Int.log 10 rough_step)
  let residual := rough_step / magnitude
  if residual ≤ 1 then magnitude
  else if residual ≤ 2 then 2 * magnitude
  else if residual ≤ 5 then 5 * magnitude
  else 10 * magnitude

/-- `LinearScale::nice_ticks` (chartkit.rs lines 71-107).  The `while`
loop visits `tick = nice_min + i * nice_step` for `i = 0, 1, …` as long
as `tick ≤ nice_max + nice_step/2`; for positive `nice_step` those are
exactly the indices `i ≤ ⌊(nice_max + nice_step/2 - nice_min)/nice_step⌋`,
and each visited tick is kept when `min ≤ tick ≤ max`. -/
def LinearScale.nice_ticks (s : LinearScale) (count : ℕ) : List ℚ :=
  let dmin := s.domain.1
  let dmax := s.domain.2
  let range := dmax - dmin
  if range = 0 ∨ count = 0 then [dmin]
  else
    let rough_step := range / count
    let nice_step := niceStep rough_step
    let nice_min := ⌊dmin / nice_step⌋ * nice_step
    let nice_max := ⌈dmax / nice_step⌉ * nice_step
    let numSteps := (⌊(nice_max + nice_step / 2 - nice_min) / nice_step⌋).toNat
    ((List.range (numSteps + 1)).map fun i : ℕ => nice_min + (i : ℚ) * nice_step).filter
      fun t => decide (dmin ≤ t) && decide (t ≤ dmax)

/-- `BandScale` (chartkit.rs lines 224-230). -/
structure BandScale where
  domain_count : ℕ
  range : ℚ × ℚ
  padding_inner : ℚ
  padding_outer : ℚ
deriving DecidableEq, Repr

/-- `BandScale::bandwidth` (chartkit.rs lines 258-273). -/
def BandScale.bandwidth (s : BandScale) : ℚ :=
  if s.domain_count = 0 then 0
  else
    let total_range := s.range.2 - s.range.1
    let n : ℚ := s.domain_count
    let outer_total := s.padding_outer * 2
    let inner_total := s.padding_inner * max (n - 1) 0
    let available := total_range / (n + outer_total + inner_total)
    available * (1 - s.padding_inner)

/-- `BandScale::step` (chartkit.rs lines 276-283). -/
def BandScale.step (s : BandScale) : ℚ :=
  if s.domain_count = 0 then 0
  else (s.range.2 - s.range.1) / s.domain_count

/-- `BandScale::scale` (chartkit.rs lines 286-296). -/
def BandScale.scale (s : BandScale) (index : ℕ) : ℚ :=
  if s.domain_count = 0 then s.range.1
  else s.range.1 + s.padding_outer * s.step + index * s.step

/-- `rough_step` as computed inside `LinearScale::nice_ticks`
(chartkit.rs line 79): domain width divided by the requested count. -/
def LinearScale.rough_step (s : LinearScale) (count : ℕ) : ℚ :=
  (s.domain.2 - s.domain.1) / count

/-! ## Concrete sample inputs used by witnesses and counterexamples -/

/-- A sample trade. -/
def tradeA : Trade where
  id := "a"
  symbol := "BTC-USD"
  price := 50000
  quantity := 1/2
  side := TradeSide.Buy
  timestamp := 1700000000000

/-- A second, distinct sample trade. -/
def tradeB : Trade where
  id := "b"
  symbol := "BTC-USD"
  price := 50010
  quantity := 3/10
  side := TradeSide.Sell
  timestamp := 1700000000001

/-- A family of distinct trades indexed by their timestamp. -/
def tradeAt (i : ℕ) : Trade :=
  { tradeA with id := "t", timestamp := (i : ℤ) }

/-- 101 trades, one more than the trade-buffer capacity. -/
def trades101 : List Trade :=
  (List.range 101).map tradeAt

/-- A market state holding one trade. -/
def stateWithTrade : MarketState :=
  { MarketState.new with trades := [tradeA] }

/-- An order book with no levels at all. -/
def emptyBook : OrderBookSnapshot where
  symbol := "BTC-USD"
  bids := []
  asks := []
  timestamp := 0
  sequence := 0

/-- The sample order book from the repository's own tests
(order.rs lines 384-397). -/
def sampleBook : OrderBookSnapshot where
  symbol := "BTC-USD"
  bids := [⟨50000, 1, 5⟩, ⟨49990, 2, 8⟩, ⟨49980, 3/2, 3⟩]
  asks := [⟨50010, 4/5, 4⟩, ⟨50020, 6/5, 6⟩, ⟨50030, 2, 10⟩]
  timestamp := 0
  sequence := 0

/-- An order book carrying a negative level quantity (the `Quantity`
wrapper places no sign restriction on its `f64`, and the wire decoder
accepts negative numbers). -/
def negQtyBook : OrderBookSnapshot where
  symbol := "BTC-USD"
  bids := [⟨100, 1, 1⟩, ⟨99, -1/2, 1⟩]
  asks := []
  timestamp := 0
  sequence := 0

/-- The backoff configuration named by the claim (and by the repository's
own test): initial 1000 ms, multiplier 2.0, max 10000 ms, jitter off. -/
def backoffC4 : ExponentialBackoff where
  initial_delay_ms := 1000
  max_delay_ms := 10000
  multiplier := 2
  max_attempts := 5
  jitter := false

/-- A malformed (non-JSON) inbound text of 102 UTF-8 bytes: 99 `'a'`
characters followed by `'€'` (3 bytes), so byte offset 100 falls inside
the final character. -/
def badText : List Char :=
  List.replicate 99 'a' ++ ['€']

/-- Linear scale over domain [0, 3]. -/
def lin03 : LinearScale where
  domain := (0, 3)
  range := (0, 1)
  clamp := false

/-- Band scale with one band, outer padding 1, inner padding 0. -/
def band1 : BandScale where
  domain_count := 1
  range := (0, 1)
  padding_inner := 0
  padding_outer := 1

/-- Band scale with five bands and uniform padding 0.1 over [0, 100]. -/
def band5 : BandScale where
  domain_count := 5
  range := (0, 100)
  padding_inner := 1/10
  padding_outer := 1/10

/-- The list transformation performed on the `trades` signal by one
`add_trade` call (market.rs lines 117-122): `insert(0, trade)`, then
`pop()` once the length exceeds `MAX_TRADES`. -/
def tradeBufferStep (l : List Trade) (t : Trade) : List Trade :=
  let l2 := t :: l
  if l2.length > MAX_TRADES then l2.dropLast else l2

/-! ## Helper lemmas -/

/-- A fresh candle satisfies the OHLC ordering invariant: all four prices
coincide. -/
theorem Candle.ohlcInvariant_new (symbol : Symbol) (interval : CandleInterval)
    (timestamp : ℤ) (openPrice : ℚ) :
    (Candle.new symbol interval timestamp openPrice).OhlcInvariant := by
  simp [Candle.new, Candle.OhlcInvariant]

/-- `Candle::update` preserves the OHLC ordering invariant. -/
theorem Candle.ohlcInvariant_update {c : Candle} (h : c.OhlcInvariant) (p q : ℚ) :
    (c.update p q).OhlcInvariant := by
  obtain ⟨h1, h2⟩ := h
  have ho1 : c.open_ ≤ c.high := le_trans (le_max_left _ _) h1
  have hc1 : c.close ≤ c.high := le_trans (le_max_right _ _) h1
  have ho2 : c.low ≤ c.open_ := le_trans h2 (min_le_left _ _)
  unfold Candle.update Candle.OhlcInvariant
  dsimp only
  split_ifs with hp hq hq <;>
    exact ⟨max_le (by linarith) (by linarith), le_min (by linarith) (by linarith)⟩

/-- Any finite sequence of updates preserves the OHLC ordering invariant. -/
theorem Candle.ohlcInvariant_applyUpdates {c : Candle} (h : c.OhlcInvariant) :
    ∀ us : List (ℚ × ℚ), (c.applyUpdates us).OhlcInvariant
  | [] => h
  | (p, q) :: rest =>
      Candle.ohlcInvariant_applyUpdates (Candle.ohlcInvariant_update h p q) rest

/-- Folding head-inserts over a batch prepends the reversed batch. -/
theorem foldl_cons_eq_reverse_append {α : Type} (l acc : List α) :
    l.foldl (fun acc t => t :: acc) acc = l.reverse ++ acc := by
  induction l generalizing acc with
  | nil => rfl
  | cons x xs ih => simp [ih, List.append_assoc]

/-- `add_trade` acts on the `trades` signal as `tradeBufferStep`. -/
theorem MarketState.add_trade_trades (st : MarketState) (t : Trade) :
    (st.add_trade t).trades = tradeBufferStep st.trades t := rfl

/-- `add_trade_seq` acts on the `trades` signal as a fold of
`tradeBufferStep`. -/
theorem MarketState.add_trade_seq_trades (ts : List Trade) :
    ∀ st : MarketState, (st.add_trade_seq ts).trades = ts.foldl tradeBufferStep st.trades := by
  induction ts with
  | nil => intro st; rfl
  | cons x xs ih =>
      intro st
      rw [MarketState.add_trade_seq, List.foldl_cons, List.foldl_cons,
        ← MarketState.add_trade_trades]
      exact ih (st.add_trade x)

/-- One buffer step keeps the length within `MAX_TRADES`. -/
theorem tradeBufferStep_length {l : List Trade} (h : l.length ≤ MAX_TRADES) (t : Trade) :
    (tradeBufferStep l t).length ≤ MAX_TRADES := by
  unfold tradeBufferStep
  dsimp only
  split_ifs with hl
  · simpa using h
  · simpa using Nat.le_of_lt_succ (Nat.lt_succ_of_le (by simpa using Nat.not_lt.mp hl))

/-- Folding buffer steps over an insertion sequence yields the reversed
sequence prepended to the old buffer, truncated to `MAX_TRADES`. -/
theorem foldl_tradeBufferStep (ts : List Trade) :
    ∀ l : List Trade, l.length ≤ MAX_TRADES →
      ts.foldl tradeBufferStep l = (ts.reverse ++ l).take MAX_TRADES := by
  induction ts with
  | nil =>
      intro l h
      simp [List.take_of_length_le h]
  | cons x xs ih =>
      intro l h
      rw [List.foldl_cons, ih _ (tradeBufferStep_length h x)]
      have hr : (x :: xs).reverse ++ l = xs.reverse ++ (x :: l) := by simp
      rw [hr]
      unfold tradeBufferStep
      dsimp only
      split_ifs with hl
      · rw [List.take_append_eq_append_take, List.take_append_eq_append_take]
        congr 1
        rw [List.dropLast_eq_take, List.take_take]
        congr 1
        have hx : (x :: l).length = MAX_TRADES + 1 := by
          have hl' : MAX_TRADES < (x :: l).length := by simpa using hl
          simp only [List.length_cons] at hl' ⊢
          omega
        omega
      · rfl

/-- The cumulative sequence built by `MarketDepth::cumulate` ends at the
starting accumulator plus the side's total quantity. -/
theorem MarketDepth.cumulate_getLastD (ls : List OrderBookLevel) :
    ∀ cq cv : ℚ,
      ((MarketDepth.cumulate cq cv ls).map DepthPoint.cumulative_quantity).getLastD cq
        = cq + (ls.map OrderBookLevel.quantity).sum := by
  induction ls with
  | nil => intro cq cv; simp [MarketDepth.cumulate]
  | cons l rest ih =>
      intro cq cv
      simp only [MarketDepth.cumulate, List.map_cons, List.getLastD_cons]
      rw [ih]
      simp only [List.map_cons, List.sum_cons]
      ring

/-- The head of the cumulative sequence is at least the starting
accumulator when the level quantities are nonnegative. -/
theorem MarketDepth.cumulate_head_ge (ls : List OrderBookLevel) (cq cv : ℚ)
    (h : ∀ l ∈ ls, 0 ≤ l.quantity) :
    ∀ p ∈ (MarketDepth.cumulate cq cv ls).head?, cq ≤ p.cumulative_quantity := by
  cases ls with
  | nil => simp [MarketDepth.cumulate]
  | cons l rest =>
      intro p hp
      simp only [MarketDepth.cumulate, List.head?_cons, Option.mem_def,
        Option.some.injEq] at hp
      subst hp
      have := h l (List.mem_cons_self l rest)
      simpa using by linarith

/-- The cumulative sequence is monotone non-decreasing when the level
quantities are nonnegative. -/
theorem MarketDepth.cumulate_chain (ls : List OrderBookLevel) :
    ∀ cq cv : ℚ, (∀ l ∈ ls, 0 ≤ l.quantity) →
      List.Chain' (fun p q : DepthPoint => p.cumulative_quantity ≤ q.cumulative_quantity)
        (MarketDepth.cumulate cq cv ls) := by
  induction ls with
  | nil => intro cq cv _; simp [MarketDepth.cumulate]
  | cons l rest ih =>
      intro cq cv h
      rw [MarketDepth.cumulate, List.chain'_cons']
      refine ⟨fun b hb => ?_, ih _ _ fun x hx => h x (List.mem_cons_of_mem _ hx)⟩
      exact MarketDepth.cumulate_head_ge rest (cq + l.quantity) (cv + l.value)
        (fun x hx => h x (List.mem_cons_of_mem _ hx)) b hb

/-- `BandScale::bandwidth` in closed form, away from the empty domain. -/
theorem BandScale.bandwidth_eq (s : BandScale) (h : s.domain_count ≠ 0) :
    s.bandwidth = (s.range.2 - s.range.1) /
        ((s.domain_count : ℚ) + s.padding_outer * 2 +
          s.padding_inner * max ((s.domain_count : ℚ) - 1) 0) *
      (1 - s.padding_inner) := by
  simp [BandScale.bandwidth, h]

/-- `BandScale::step` in closed form, away from the empty domain. -/
theorem BandScale.step_eq (s : BandScale) (h : s.domain_count ≠ 0) :
    s.step = (s.range.2 - s.range.1) / (s.domain_count : ℚ) := by
  simp [BandScale.step, h]

/-- `BandScale::scale` in closed form, away from the empty domain. -/
theorem BandScale.scale_eq (s : BandScale) (h : s.domain_count ≠ 0) (index : ℕ) :
    s.scale index = s.range.1 + s.padding_outer * s.step + (index : ℚ) * s.step := by
  simp [BandScale.scale, h]

/-- Core band-scale inequality: with `n ≥ 1` bands over width `W ≥ 0`,
inner padding `i` and outer padding `o` with `0 ≤ o ≤ i ≤ 1`, the last
band's start offset plus the bandwidth stays within the width. -/
theorem band_core (n W i o : ℚ) (hn1 : 1 ≤ n) (hW : 0 ≤ W) (hi0 : 0 ≤ i)
    (hi1 : i ≤ 1) (ho0 : 0 ≤ o) (hoi : o ≤ i) :
    o * (W / n) + (n - 1) * (W / n) + W / (n + o * 2 + i * (n - 1)) * (1 - i) ≤ W := by
  have hnpos : (0:ℚ) < n := by linarith
  set D : ℚ := n + o * 2 + i * (n - 1) with hD
  have hDn : n ≤ D := by
    have h1 : 0 ≤ o * 2 := by linarith
    have h2 : 0 ≤ i * (n - 1) := mul_nonneg hi0 (by linarith)
    rw [hD]; linarith
  have hDpos : (0:ℚ) < D := lt_of_lt_of_le hnpos hDn
  have haN : W / n * n = W := div_mul_cancel₀ W hnpos.ne'
  have hbD : W / D * D = W := div_mul_cancel₀ W hDpos.ne'
  have hb0 : 0 ≤ W / D := div_nonneg hW hDpos.le
  have key : (1 - i) * n ≤ (1 - o) * D := by
    nlinarith [mul_nonneg (sub_nonneg.2 hoi) hDpos.le,
      mul_nonneg (sub_nonneg.2 hi1) (sub_nonneg.2 hDn)]
  have t1 : W / D * ((1 - i) * n) ≤ W / D * ((1 - o) * D) :=
    mul_le_mul_of_nonneg_left key hb0
  have t2 : W / D * ((1 - o) * D) = W * (1 - o) := by
    rw [show W / D * ((1 - o) * D) = W / D * D * (1 - o) from by ring, hbD]
  have t3 : W * (1 - o) = W / n * (1 - o) * n := by
    rw [show W / n * (1 - o) * n = W / n * n * (1 - o) from by ring, haN]
  have key2 : W / D * (1 - i) * n ≤ W / n * (1 - o) * n := by
    calc W / D * (1 - i) * n = W / D * ((1 - i) * n) := by ring
      _ ≤ W / D * ((1 - o) * D) := t1
      _ = W * (1 - o) := t2
      _ = W / n * (1 - o) * n := t3
  have final : W / D * (1 - i) ≤ W / n * (1 - o) :=
    le_of_mul_le_mul_right key2 hnpos
  have expand : o * (W / n) + (n - 1) * (W / n) + W / n * (1 - o) = W / n * n := by
    ring
  linarith [final, haN, expand]

/-- The nice step has the form `{1,2,5,10}·10^⌊log10 raw⌋` and snaps the
raw step upward: `raw ≤ niceStep raw`. -/
theorem niceStep_spec {raw : ℚ} (hraw : 0 < raw) :
    (∃ c ∈ ([1, 2, 5, 10] : List ℚ), niceStep raw = c * 10 ^ Int.log 10 raw) ∧
    raw ≤ niceStep raw := by
  have hmag : (0:ℚ) < 10 ^ Int.log 10 raw := zpow_pos (by norm_num) _
  have hml : (10:ℚ) ^ Int.log 10 raw ≤ raw := by
    exact_mod_cast Int.zpow_log_le_self (b := 10) (by norm_num) hraw
  have hmu : raw < (10:ℚ) ^ (Int.log 10 raw + 1) := by
    exact_mod_cast Int.lt_zpow_succ_log_self (b := 10) (by norm_num) raw
  have hmu' : raw < 10 * 10 ^ Int.log 10 raw := by
    rw [zpow_add_one₀ (by norm_num : (10:ℚ) ≠ 0)] at hmu
    linarith
  unfold niceStep
  dsimp only
  split_ifs with h1 h2 h5
  · exact ⟨⟨1, by norm_num, (one_mul _).symm⟩, by
      have := (div_le_one hmag).mp h1
      linarith⟩
  · exact ⟨⟨2, by norm_num, rfl⟩, by
      have := (div_le_iff₀ hmag).mp h2
      linarith⟩
  · exact ⟨⟨5, by norm_num, rfl⟩, by
      have := (div_le_iff₀ hmag).mp h5
      linarith⟩
  · exact ⟨⟨10, by norm_num, rfl⟩, hmu'.le⟩

/-- Enumeration of the tick loop: for a positive step, the filtered list
`[nice_min + i·step for i ≤ ⌊(nice_max + step/2 - nice_min)/step⌋]`
contains exactly the integer multiples of the step lying within
`[lo, hi]`. -/
theorem tick_enumeration (step lo hi : ℚ) (hstep : 0 < step) (x : ℚ) :
    (x ∈ (((List.range
          ((⌊(⌈hi / step⌉ * step + step / 2 - ⌊lo / step⌋ * step) / step⌋).toNat + 1)).map
        fun i : ℕ => ⌊lo / step⌋ * step + (i : ℚ) * step).filter
        fun t => decide (lo ≤ t) && decide (t ≤ hi))) ↔
      ∃ m : ℤ, x = m * step ∧ lo ≤ x ∧ x ≤ hi := by
  rw [List.mem_filter, List.mem_map]
  constructor
  · rintro ⟨⟨i, hiN, rfl⟩, hp⟩
    simp only [Bool.and_eq_true, decide_eq_true_eq] at hp
    refine ⟨⌊lo / step⌋ + i, ?_, hp.1, hp.2⟩
    push_cast
    ring
  · rintro ⟨m, rfl, hlo, hhi⟩
    have hfl : ⌊lo / step⌋ ≤ m := by
      have h1 : lo / step ≤ (m : ℚ) := (div_le_iff₀ hstep).mpr (by linarith)
      calc ⌊lo / step⌋ ≤ ⌊(m : ℚ)⌋ := Int.floor_le_floor h1
        _ = m := Int.floor_intCast m
    have hceil : hi ≤ ⌈hi / step⌉ * step := (div_le_iff₀ hstep).mp (Int.le_ceil _)
    have hbound : m - ⌊lo / step⌋ ≤
        ⌊(⌈hi / step⌉ * step + step / 2 - ⌊lo / step⌋ * step) / step⌋ := by
      rw [Int.le_floor, le_div_iff₀ hstep]
      push_cast
      linarith
    have h0 : (0:ℤ) ≤ m - ⌊lo / step⌋ := by omega
    have hcast : ((m - ⌊lo / step⌋).toNat : ℚ) = (m : ℚ) - (⌊lo / step⌋ : ℚ) := by
      have h1 : ((m - ⌊lo / step⌋).toNat : ℤ) = m - ⌊lo / step⌋ := Int.toNat_of_nonneg h0
      exact_mod_cast h1
    refine ⟨⟨(m - ⌊lo / step⌋).toNat,
      List.mem_range.mpr (Nat.lt_succ_of_le (Int.toNat_le_toNat hbound)), ?_⟩, ?_⟩
    · rw [hcast]
      ring
    · simp only [Bool.and_eq_true, decide_eq_true_eq]
      exact ⟨hlo, hhi⟩

/-- `nice_ticks` returns exactly the integer multiples of the nice step
lying within the (non-degenerate) domain, inclusive. -/
theorem nice_ticks_mem_iff (s : LinearScale) (count : ℕ)
    (hd : s.domain.1 < s.domain.2) (hc : count ≠ 0) (x : ℚ) :
    x ∈ s.nice_ticks count ↔
      ∃ m : ℤ, x = m * niceStep (s.rough_step count) ∧
        s.domain.1 ≤ x ∧ x ≤ s.domain.2 := by
  have hcq : (0:ℚ) < (count : ℚ) := by
    exact_mod_cast Nat.pos_of_ne_zero hc
  have hraw : 0 < s.rough_step count := div_pos (by linarith) hcq
  have hstep : 0 < niceStep (s.rough_step count) :=
    lt_of_lt_of_le hraw (niceStep_spec hraw).2
  have hne : ¬ (s.domain.2 - s.domain.1 = 0 ∨ count = 0) := by
    push_neg
    exact ⟨(sub_pos.mpr hd).ne', hc⟩
  simp only [LinearScale.nice_ticks]
  rw [if_neg hne]
  exact tick_enumeration (niceStep (s.rough_step count)) s.domain.1 s.domain.2 hstep x

end Dash

namespace Dash

/-! ## C5: Candle OHLC invariant -/

/-- C5.  For every candle created by `Candle::new` and every finite
sequence of `update(price, qty)` calls applied to it, the invariant
`high ≥ max(open, close) ≥ min(open, close) ≥ low` holds after each
update (`max ≥ min` being automatic, the invariant is stated as
`max(open, close) ≤ high ∧ low ≤ min(open, close)`; an arbitrary update
sequence covers every prefix, hence "after each update"). -/
theorem candle_ohlc_invariant_holds (symbol : Symbol) (interval : CandleInterval)
    (timestamp : ℤ) (openPrice : ℚ) (updates : List (ℚ × ℚ)) :
    ((Candle.new symbol interval timestamp openPrice).applyUpdates updates).OhlcInvariant :=
  Candle.ohlcInvariant_applyUpdates
    (Candle.ohlcInvariant_new symbol interval timestamp openPrice) updates

/-! ## C4: exponential backoff contract -/

/-- C4.  With initial delay 1000 ms, multiplier 2.0, max delay 10000 ms
and jitter disabled, `delay_ms` yields `[1000, 2000, 4000, 8000, 10000]`
for attempts 0..4 (`min(max_delay, initial_delay * multiplier^attempt)`),
and for every policy `should_reconnect(attempt)` is false at
`attempt == max_attempts` when `max_attempts > 0` and true unconditionally
when `max_attempts == 0`. -/
theorem exponential_backoff_contract :
    ([0, 1, 2, 3, 4].map backoffC4.delay_ms = [1000, 2000, 4000, 8000, 10000]) ∧
    ∀ p : ExponentialBackoff,
      (0 < p.max_attempts → p.should_reconnect p.max_attempts = false) ∧
      (p.max_attempts = 0 → ∀ attempt : ℕ, p.should_reconnect attempt = true) := by
  refine ⟨?_, fun p => ⟨fun hpos => ?_, fun hzero attempt => ?_⟩⟩
  · norm_num [backoffC4, ExponentialBackoff.delay_ms]
    decide
  · simp only [ExponentialBackoff.should_reconnect, Bool.or_eq_false_iff,
      decide_eq_false_iff_not]
    omega
  · simp [ExponentialBackoff.should_reconnect, hzero]

/-- Witness for C4: the hypotheses of the `should_reconnect` parts hold at
the concrete policies used here. -/
theorem exponential_backoff_contract_witness :
    (0 < backoffC4.max_attempts ∧ backoffC4.should_reconnect backoffC4.max_attempts = false) ∧
    ({ backoffC4 with max_attempts := 0 }.max_attempts = 0 ∧
      ExponentialBackoff.should_reconnect { backoffC4 with max_attempts := 0 } 7 = true) :=
  ⟨⟨by decide, (exponential_backoff_contract.2 backoffC4).1 (by decide)⟩,
   ⟨rfl, (exponential_backoff_contract.2 { backoffC4 with max_attempts := 0 }).2 rfl 7⟩⟩

/-! ## C10: order-book imbalance never divides by zero -/

/-- C10.  `imbalance()` returns exactly 0 whenever total bid depth plus
total ask depth is zero (in particular for empty books), and otherwise
returns `(bid_depth - ask_depth) / (bid_depth + ask_depth)`. -/
theorem imbalance_no_div_by_zero (b : OrderBookSnapshot) :
    (b.total_bid_depth + b.total_ask_depth = 0 → b.imbalance = 0) ∧
    (b.total_bid_depth + b.total_ask_depth ≠ 0 →
      b.imbalance =
        (b.total_bid_depth - b.total_ask_depth) /
          (b.total_bid_depth + b.total_ask_depth)) := by
  unfold OrderBookSnapshot.imbalance
  constructor <;> intro h <;> simp [h]

/-- Witness for C10: both branches discharged on concrete books (the empty
book, and the order book from the repository's tests). -/
theorem imbalance_no_div_by_zero_witness :
    emptyBook.imbalance = 0 ∧
    sampleBook.imbalance =
      (sampleBook.total_bid_depth - sampleBook.total_ask_depth) /
        (sampleBook.total_bid_depth + sampleBook.total_ask_depth) :=
  ⟨(imbalance_no_div_by_zero emptyBook).1 (by
      norm_num [emptyBook, OrderBookSnapshot.total_bid_depth,
        OrderBookSnapshot.total_ask_depth]),
   (imbalance_no_div_by_zero sampleBook).2 (by
      norm_num [sampleBook, OrderBookSnapshot.total_bid_depth,
        OrderBookSnapshot.total_ask_depth])⟩

/-! ## C2: set_symbol / set_interval reset behaviour -/

/-- C2 counterexample.  The claim states that `set_interval` also resets
ticker, orderbook, depth and trades to empty.  It does not: starting from
a state holding one trade, after `set_interval(M5)` the trade buffer still
holds that trade. -/
theorem set_interval_does_not_clear_trades :
    (stateWithTrade.set_interval CandleInterval.M5).trades ≠ [] := by
  decide

/-- C2 amended.  `set_symbol(symbol)` resets ticker, orderbook, depth and
trades to empty and reinitializes the candle history keyed to the new
symbol and the current interval; `set_interval(interval)` reinitializes
the candle history keyed to the current symbol and the new interval but
leaves ticker, orderbook, depth and trades unchanged. -/
theorem set_symbol_set_interval_reset (st : MarketState) (symbol : Symbol)
    (interval : CandleInterval) :
    ((st.set_symbol symbol).ticker = none ∧
     (st.set_symbol symbol).orderbook = none ∧
     (st.set_symbol symbol).depth = none ∧
     (st.set_symbol symbol).trades = [] ∧
     (st.set_symbol symbol).candles = CandleHistory.new symbol st.interval) ∧
    ((st.set_interval interval).candles = CandleHistory.new st.symbol interval ∧
     (st.set_interval interval).ticker = st.ticker ∧
     (st.set_interval interval).orderbook = st.orderbook ∧
     (st.set_interval interval).depth = st.depth ∧
     (st.set_interval interval).trades = st.trades) :=
  ⟨⟨rfl, rfl, rfl, rfl, rfl⟩, ⟨rfl, rfl, rfl, rfl, rfl⟩⟩

/-! ## C3: batch trade insertion order -/

/-- C3 counterexample.  The claim states that after `add_trades(batch)`
the buffer's first `batch.len()` elements equal the batch in its original
order.  Inserting the two-element batch `[tradeA, tradeB]` into an empty
buffer leaves `[tradeB, tradeA]`: each element is inserted at index 0 in
turn, which reverses the batch. -/
theorem add_trades_not_in_original_order :
    ¬ (MarketState.new.add_trades [tradeA, tradeB]).trades.take 2 = [tradeA, tradeB] := by
  intro h
  have h0 := congrArg (fun l => l.head?) h
  simp [MarketState.new, MarketState.add_trades, tradeA, tradeB, MAX_TRADES] at h0

/-- C3 amended.  For every non-empty batch, `add_trades(batch)` inserts
the batch at the head of the buffer in reverse batch order: afterwards
the buffer equals the reversed batch prepended to the old buffer,
truncated to the capacity (so its first `min(batch.len(), 100)` elements
are the batch reversed, up to capacity truncation). -/
theorem add_trades_head_reversed (st : MarketState) (batch : List Trade)
    (h : batch ≠ []) :
    (st.add_trades batch).trades = (batch.reverse ++ st.trades).take MAX_TRADES := by
  obtain ⟨b, bs, rfl⟩ := List.exists_cons_of_ne_nil h
  show (((b :: bs).foldl (fun acc t => t :: acc) st.trades).take MAX_TRADES) = _
  rw [foldl_cons_eq_reverse_append]

/-- Witness for C3 amended: the two-element batch on the fresh store. -/
theorem add_trades_head_reversed_witness :
    ([tradeA, tradeB] ≠ ([] : List Trade)) ∧
    (MarketState.new.add_trades [tradeA, tradeB]).trades =
      (([tradeA, tradeB]).reverse ++ MarketState.new.trades).take MAX_TRADES :=
  ⟨by simp, add_trades_head_reversed MarketState.new [tradeA, tradeB] (by simp)⟩

/-! ## C6: trade-buffer capacity -/

/-- C6.  Starting from an empty buffer, after inserting `k > 100` trades
one at a time via `add_trade`, the stored buffer has exactly 100 entries
and equals the reversed insertion sequence truncated to 100 — i.e. the
last 100 trades inserted, most recent first. -/
theorem trade_buffer_capacity (st : MarketState) (h0 : st.trades = [])
    (ts : List Trade) (hk : MAX_TRADES < ts.length) :
    (st.add_trade_seq ts).trades.length = MAX_TRADES ∧
    (st.add_trade_seq ts).trades = ts.reverse.take MAX_TRADES := by
  have htr : (st.add_trade_seq ts).trades = ts.reverse.take MAX_TRADES := by
    rw [MarketState.add_trade_seq_trades, h0,
      foldl_tradeBufferStep ts [] (by simp)]
    simp
  refine ⟨?_, htr⟩
  rw [htr, List.length_take, List.length_reverse]
  omega

/-- Witness for C6: 101 concrete trades inserted into the fresh store. -/
theorem trade_buffer_capacity_witness :
    MarketState.new.trades = [] ∧ MAX_TRADES < trades101.length ∧
    (MarketState.new.add_trade_seq trades101).trades.length = MAX_TRADES :=
  ⟨rfl, by norm_num [trades101, MAX_TRADES],
   (trade_buffer_capacity MarketState.new rfl trades101
      (by norm_num [trades101, MAX_TRADES])).1⟩

/-! ## C9: market-depth cumulative sequences -/

/-- C9 counterexample.  The claim quantifies over every
`OrderBookSnapshot`, but level quantities are plain `f64` values with no
sign restriction: on a book whose second bid level carries quantity
`-0.5`, the cumulative sequence `[1, 1/2]` is not monotone
non-decreasing. -/
theorem marketdepth_not_monotone_on_negative_qty :
    ¬ List.Chain' (fun p q : DepthPoint => p.cumulative_quantity ≤ q.cumulative_quantity)
        (MarketDepth.from_orderbook negQtyBook).bid_depth := by
  intro h
  simp only [MarketDepth.from_orderbook, negQtyBook, MarketDepth.cumulate,
    List.chain'_cons, List.chain'_singleton, and_true] at h
  norm_num [OrderBookLevel.value] at h

/-- C9 amended.  For every order book, on each side whose level
quantities are all nonnegative `MarketDepth::from_orderbook` produces a
monotone non-decreasing cumulative-quantity sequence; and for every
order book unconditionally, the final cumulative quantity of each side
(0 for an empty side) equals that side's total depth.  The nonnegativity
hypotheses guard only the monotonicity conjuncts; the total-depth
conjuncts hold for every snapshot, negative quantities included. -/
theorem marketdepth_cumulative_correct (b : OrderBookSnapshot) :
    ((∀ l ∈ b.bids, 0 ≤ l.quantity) →
      List.Chain' (fun p q : DepthPoint => p.cumulative_quantity ≤ q.cumulative_quantity)
        (MarketDepth.from_orderbook b).bid_depth) ∧
    ((∀ l ∈ b.asks, 0 ≤ l.quantity) →
      List.Chain' (fun p q : DepthPoint => p.cumulative_quantity ≤ q.cumulative_quantity)
        (MarketDepth.from_orderbook b).ask_depth) ∧
    (((MarketDepth.from_orderbook b).bid_depth.map DepthPoint.cumulative_quantity).getLastD 0
        = b.total_bid_depth ∧
     ((MarketDepth.from_orderbook b).ask_depth.map DepthPoint.cumulative_quantity).getLastD 0
        = b.total_ask_depth) := by
  refine ⟨fun hb => MarketDepth.cumulate_chain b.bids 0 0 hb,
          fun ha => MarketDepth.cumulate_chain b.asks 0 0 ha, ?_, ?_⟩
  · have := MarketDepth.cumulate_getLastD b.bids 0 0
    simpa [MarketDepth.from_orderbook, OrderBookSnapshot.total_bid_depth] using this
  · have := MarketDepth.cumulate_getLastD b.asks 0 0
    simpa [MarketDepth.from_orderbook, OrderBookSnapshot.total_ask_depth] using this

/-- Witness for C9 amended: both nonnegativity hypotheses discharged on
the repository's sample book, together with the unconditional total-depth
conclusion there. -/
theorem marketdepth_cumulative_correct_witness :
    (∀ l ∈ sampleBook.bids, 0 ≤ l.quantity) ∧
    (∀ l ∈ sampleBook.asks, 0 ≤ l.quantity) ∧
    List.Chain' (fun p q : DepthPoint => p.cumulative_quantity ≤ q.cumulative_quantity)
      (MarketDepth.from_orderbook sampleBook).bid_depth ∧
    List.Chain' (fun p q : DepthPoint => p.cumulative_quantity ≤ q.cumulative_quantity)
      (MarketDepth.from_orderbook sampleBook).ask_depth ∧
    ((MarketDepth.from_orderbook sampleBook).bid_depth.map
        DepthPoint.cumulative_quantity).getLastD 0 = sampleBook.total_bid_depth := by
  have hb : ∀ l ∈ sampleBook.bids, 0 ≤ l.quantity := by
    intro l hl
    simp only [sampleBook, List.mem_cons, List.not_mem_nil, or_false] at hl
    rcases hl with rfl | rfl | rfl <;> norm_num
  have ha : ∀ l ∈ sampleBook.asks, 0 ≤ l.quantity := by
    intro l hl
    simp only [sampleBook, List.mem_cons, List.not_mem_nil, or_false] at hl
    rcases hl with rfl | rfl | rfl <;> norm_num
  exact ⟨hb, ha, (marketdepth_cumulative_correct sampleBook).1 hb,
    (marketdepth_cumulative_correct sampleBook).2.1 ha,
    (marketdepth_cumulative_correct sampleBook).2.2.1⟩

/-! ## C8: band-scale range containment -/

/-- C8 counterexample.  The claim quantifies over all inner/outer padding
fractions in `[0, 1]`; it fails when the outer padding exceeds the inner
padding.  With one band over `[0, 1]`, inner padding 0 and outer padding
1 (both within `[0, 1]` and reachable through `padding()`, which clamps to
`[0, 1]`), `scale(0) + bandwidth() = 1 + 1/3 > range_max`. -/
theorem band_scale_exceeds_range :
    1 ≤ band1.domain_count ∧ band1.range.1 ≤ band1.range.2 ∧
    0 ≤ band1.padding_inner ∧ band1.padding_inner ≤ 1 ∧
    0 ≤ band1.padding_outer ∧ band1.padding_outer ≤ 1 ∧
    ¬ (band1.scale (band1.domain_count - 1) + band1.bandwidth ≤ band1.range.2) := by
  refine ⟨?_, ?_, ?_, ?_, ?_, ?_, ?_⟩ <;>
    norm_num [band1, BandScale.scale, BandScale.bandwidth, BandScale.step]

/-- C8 amended.  For every band scale with `n ≥ 1`,
`range_min ≤ range_max`, padding fractions in `[0, 1]` and
`padding_outer ≤ padding_inner` (in particular for the uniform padding the
chart components use), `scale(0) ≥ range_min` and
`scale(n-1) + bandwidth() ≤ range_max`; the first inequality needs only
`n ≥ 1`, nonnegative outer padding and a nonreversed range. -/
theorem band_scale_within_range (s : BandScale) (hn : 1 ≤ s.domain_count)
    (hr : s.range.1 ≤ s.range.2) (hi0 : 0 ≤ s.padding_inner)
    (hi1 : s.padding_inner ≤ 1) (ho0 : 0 ≤ s.padding_outer)
    (hoi : s.padding_outer ≤ s.padding_inner) :
    s.range.1 ≤ s.scale 0 ∧
    s.scale (s.domain_count - 1) + s.bandwidth ≤ s.range.2 := by
  have h0 : s.domain_count ≠ 0 := by omega
  have hn1 : (1:ℚ) ≤ (s.domain_count : ℚ) := by exact_mod_cast hn
  have hnpos : (0:ℚ) < (s.domain_count : ℚ) := by linarith
  have hW : (0:ℚ) ≤ s.range.2 - s.range.1 := by linarith
  have hstep0 : 0 ≤ s.step := by
    rw [BandScale.step_eq s h0]
    positivity
  constructor
  · rw [BandScale.scale_eq s h0 0]
    have := mul_nonneg ho0 hstep0
    push_cast
    linarith
  · have hmax : max ((s.domain_count : ℚ) - 1) 0 = (s.domain_count : ℚ) - 1 :=
      max_eq_left (by linarith)
    have hcast : ((s.domain_count - 1 : ℕ) : ℚ) = (s.domain_count : ℚ) - 1 := by
      push_cast [hn]
      ring
    have hcore := band_core (s.domain_count : ℚ) (s.range.2 - s.range.1)
      s.padding_inner s.padding_outer hn1 hW hi0 hi1 ho0 hoi
    rw [BandScale.scale_eq s h0, BandScale.bandwidth_eq s h0,
      BandScale.step_eq s h0, hmax, hcast]
    linarith

/-- Witness for C8 amended: five bands with uniform padding 0.1 over
`[0, 100]`. -/
theorem band_scale_within_range_witness :
    (1 ≤ band5.domain_count ∧ band5.range.1 ≤ band5.range.2 ∧
     0 ≤ band5.padding_inner ∧ band5.padding_inner ≤ 1 ∧
     0 ≤ band5.padding_outer ∧ band5.padding_outer ≤ band5.padding_inner) ∧
    (band5.range.1 ≤ band5.scale 0 ∧
     band5.scale (band5.domain_count - 1) + band5.bandwidth ≤ band5.range.2) :=
  ⟨⟨by norm_num [band5], by norm_num [band5], by norm_num [band5],
    by norm_num [band5], by norm_num [band5], by norm_num [band5]⟩,
   band_scale_within_range band5 (by norm_num [band5]) (by norm_num [band5])
     (by norm_num [band5]) (by norm_num [band5]) (by norm_num [band5])
     (by norm_num [band5])⟩

/-! ## C1: malformed inbound messages -/

set_option maxRecDepth 4000

/-- C1.  The specification requires `process_message` never to panic on a
malformed inbound text, but the decode-failure branch formats
`&text[..text.len().min(100)]`, and that byte slice panics when offset
100 is not a UTF-8 character boundary.  On the malformed 102-byte text
`badText` (99 `'a'`s then `'€'`), any decoder that rejects the text sends
`process_message` into the panicking branch (modelled as `none`). -/
theorem process_message_panics_on_bad_truncation
    (decode : List Char → Option WsMessage) (st : MarketState)
    (h : decode badText = none) :
    WsClient.process_message decode st badText = none := by
  unfold WsClient.process_message
  rw [h]
  have hb : isCharBoundary badText (min (byteLen badText) 100) = false := by decide
  simp [hb]

/-- Witness for C1: a decoder that rejects every text (as the JSON decoder
does on `badText`, which is not JSON), applied to the fresh store. -/
theorem process_message_panics_on_bad_truncation_witness :
    (fun _ : List Char => (none : Option WsMessage)) badText = none ∧
    WsClient.process_message (fun _ => none) MarketState.new badText = none :=
  ⟨rfl, process_message_panics_on_bad_truncation (fun _ => none) MarketState.new rfl⟩

/-! ## C7: nice tick generation -/

/-- C7 counterexample.  The claim requires the snapped step to be `≤` the
raw step, but the code snaps the step upward.  On the domain `[0, 3]`
with requested count 2, the raw step is `3/2` and the ticks are `[0, 2]`:
there is no step `c·10^k` with `c ∈ {1,2,5,10}` that is `≤ 3/2` and whose
in-domain multiples are exactly the returned ticks, because any such
positive step would itself be a member of the returned list, yet both
returned ticks (`0` and `2`) differ from every positive value `≤ 3/2`. -/
theorem nice_ticks_step_not_below_raw :
    ¬ ∃ c ∈ ([1, 2, 5, 10] : List ℚ), ∃ k : ℤ,
        c * 10 ^ k ≤ lin03.rough_step 2 ∧
        ∀ x : ℚ, x ∈ lin03.nice_ticks 2 ↔
          ∃ m : ℤ, x = m * (c * 10 ^ k) ∧
            lin03.domain.1 ≤ x ∧ x ≤ lin03.domain.2 := by
  rintro ⟨c, hc, k, hle, hiff⟩
  have hraw : lin03.rough_step 2 = 3 / 2 := by
    norm_num [lin03, LinearScale.rough_step]
  have hlog : Int.log 10 ((3:ℚ)/2) = 0 := by
    rw [Int.log_of_one_le_right 10 (by norm_num)]
    rw [show ⌊(3:ℚ)/2⌋₊ = 1 from by rw [Nat.floor_eq_iff (by norm_num)]; norm_num]
    simp
  have hstep2 : niceStep ((3:ℚ)/2) = 2 := by
    unfold niceStep
    rw [hlog]
    norm_num
  have hpos : (0:ℚ) < c * 10 ^ k := by
    have h10 : (0:ℚ) < 10 ^ k := zpow_pos (by norm_num) k
    have hc' : (0:ℚ) < c := by
      simp only [List.mem_cons, List.not_mem_nil, or_false] at hc
      rcases hc with rfl | rfl | rfl | rfl <;> norm_num
    exact mul_pos hc' h10
  rw [hraw] at hle
  have hmem : c * 10 ^ k ∈ lin03.nice_ticks 2 := by
    refine (hiff (c * 10 ^ k)).2 ⟨1, by ring, ?_, ?_⟩
    · show lin03.domain.1 ≤ c * 10 ^ k
      norm_num [lin03]
      linarith
    · show c * 10 ^ k ≤ lin03.domain.2
      norm_num [lin03]
      linarith
  obtain ⟨m, hm, hm0, hm3⟩ :=
    (nice_ticks_mem_iff lin03 2 (by norm_num [lin03]) (by norm_num) (c * 10 ^ k)).1 hmem
  rw [show lin03.rough_step 2 = (3:ℚ)/2 from hraw, hstep2] at hm
  have hmpos : (0:ℤ) < m := by
    have : (0:ℚ) < (m : ℚ) * 2 := by rw [← hm]; exact hpos
    have : (0:ℚ) < (m : ℚ) := by linarith
    exact_mod_cast this
  have hm1 : (1:ℚ) ≤ (m : ℚ) := by exact_mod_cast hmpos
  have : (2:ℚ) ≤ c * 10 ^ k := by
    rw [hm]
    linarith
  linarith

/-- C7 amended.  For every linear scale with a non-degenerate (increasing)
domain and every requested count ≥ 1, `nice_ticks(count)` uses a step of
the form `{1,2,5,10}×10^k` that is `≥` the raw step (domain width /
count, snapped upward), and returns exactly the integer multiples of that
step lying within `[domain_min, domain_max]` inclusive (the half-step
tolerance only pads the loop's upper bound; the emitted ticks are
compared against the domain bounds exactly). -/
theorem nice_ticks_snapped_step (s : LinearScale) (count : ℕ)
    (hd : s.domain.1 < s.domain.2) (hc : 1 ≤ count) :
    (∃ c ∈ ([1, 2, 5, 10] : List ℚ),
        niceStep (s.rough_step count) = c * 10 ^ Int.log 10 (s.rough_step count)) ∧
    s.rough_step count ≤ niceStep (s.rough_step count) ∧
    ∀ x : ℚ, x ∈ s.nice_ticks count ↔
      ∃ m : ℤ, x = m * niceStep (s.rough_step count) ∧
        s.domain.1 ≤ x ∧ x ≤ s.domain.2 := by
  have hcq : (0:ℚ) < (count : ℚ) := by
    exact_mod_cast Nat.pos_of_ne_zero (by omega)
  have hraw : 0 < s.rough_step count := div_pos (by linarith) hcq
  exact ⟨(niceStep_spec hraw).1, (niceStep_spec hraw).2,
    fun x => nice_ticks_mem_iff s count hd (by omega) x⟩

/-- Witness for C7 amended: the scale over `[0, 3]` with count 2. -/
theorem nice_ticks_snapped_step_witness :
    lin03.domain.1 < lin03.domain.2 ∧ (1:ℕ) ≤ 2 ∧
    lin03.rough_step 2 ≤ niceStep (lin03.rough_step 2) :=
  ⟨by norm_num [lin03], by norm_num,
   (nice_ticks_snapped_step lin03 2 (by norm_num [lin03]) (by norm_num)).2.1⟩

end Dash
